import Mathlib

/-!
# Verification of the `EarlyAllocator` bump allocator

Shallow embedding of `modules/bump_allocator/src/lib.rs`: a boot-phase
allocator holding a fixed table of 64 bump regions together with a `u64`
bitset of the slots that are in use.

Modelling conventions:
* `usize` values are natural numbers; every arithmetic step the source
  performs on a machine word is reduced modulo `2 ^ 64`, matching the
  release-profile wrap-on-overflow semantics of the compiled code.
* `&mut self` methods become functions from the allocator state to a result
  carrying the successor state.
* The two `.unwrap()` calls in the source can abort the program; such
  executions are represented by an explicit `panicked` result.
* The source's `while tried_regions != self.bitmap` scan has no built-in
  bound.  The model runs it on a probe budget of 64 (the table capacity);
  a scan still inside the loop after 64 probes has visited every slot, so
  its `tried_regions` word can never change again and the concrete loop
  spins forever.  That situation is represented by the `spin` result.
-/

namespace BumpAllocator

/-- `struct Region { start, end, next }`: one contiguous span with a bump
cursor. -/
structure Region where
  start : Nat
  «end» : Nat
  next : Nat
deriving DecidableEq, Repr

/-- `Region::empty()`. -/
def Region.empty : Region := { start := 0, «end» := 0, next := 0 }

/-- The error enum of the external `allocator` crate that the source
compiles against; the source itself only ever names
`AllocError::NoMemory`. -/
inductive AllocError where
  | InvalidParam
  | MemoryOverlap
  | NoMemory
  | NotAllocated
deriving DecidableEq, Repr

/-- `EarlyAllocator<PAGE_SIZE>`.  The const generic `PAGE_SIZE` is passed
explicitly to the page-level operations.  `regions` is the fixed table of
64 slots (kept as a list of length 64). -/
structure EarlyAllocator where
  bitmap : Nat
  regions : List Region
  current_region : Nat
  total_size : Nat
  used_size : Nat
deriving DecidableEq, Repr

/-- `EarlyAllocator::new()`. -/
def EarlyAllocator.new : EarlyAllocator :=
  { bitmap := 0
    regions := List.replicate 64 Region.empty
    current_region := 0
    total_size := 0
    used_size := 0 }

/-- `BaseAllocator::init(&mut self, start, size)`: install one region in
slot 0, set `bitmap = 1`, `current_region = 0`, `total_size = size`,
`used_size = 0`.  `start + size` is a `usize` addition. -/
def EarlyAllocator.init (s : EarlyAllocator) (start size : Nat) : EarlyAllocator :=
  { s with
    regions := s.regions.set 0 { start := start, «end» := (start + size) % 2 ^ 64, next := start }
    bitmap := 1
    current_region := 0
    total_size := size
    used_size := 0 }

/-- The `while idx < 64` scan of `add_memory`, with `fuel = 64 - idx`
iterations left to run; when the fuel is exhausted the loop has fallen
through and the source returns `Err(AllocError::NoMemory)`. -/
def EarlyAllocator.add_memory_from (s : EarlyAllocator) (start size : Nat) :
    Nat → Nat → Except AllocError EarlyAllocator
  | 0, _ => .error .NoMemory
  | fuel + 1, idx =>
    if s.bitmap &&& (1 <<< idx) = 0 then
      .ok { s with
            regions := s.regions.set idx
              { start := start, «end» := (start + size) % 2 ^ 64, next := start }
            bitmap := s.bitmap ||| (1 <<< idx)
            total_size := (s.total_size + size) % 2 ^ 64 }
    else s.add_memory_from start size fuel (idx + 1)

/-- `BaseAllocator::add_memory(&mut self, start, size)`: install a region
in the first inactive slot, or fail if all 64 slots are active.  The error
value is left exactly as the source writes it. -/
def EarlyAllocator.add_memory (s : EarlyAllocator) (start size : Nat) :
    Except AllocError EarlyAllocator :=
  s.add_memory_from start size 64 0

/-- Result of an allocation call, with the state (`&mut self`) threaded
explicitly.  `err` keeps the (unchanged) state next to the error value.
`panicked` marks aborting executions (`NonNull::new(ptr).unwrap()` on a
null pointer, or `Layout::from_size_align(..).unwrap()` on an invalid
layout).  `spin` marks a byte-allocation scan that is still inside the
search loop after 64 probes — such a scan never terminates. -/
inductive AllocResult where
  | ok (addr : Nat) (s : EarlyAllocator)
  | err (e : AllocError) (s : EarlyAllocator)
  | panicked
  | spin
deriving DecidableEq, Repr

/-- `!(align - 1)` on `u64` (bitwise complement inside the 64-bit word). -/
def notAlignMask (align : Nat) : Nat := (2 ^ 64 - 1) - (align - 1)

/-- `(region.next + align - 1) & !(align - 1)`: the candidate aligned
address.  (The sum is a `usize` addition; `align ≥ 1` always holds for a
`Layout` alignment, so the `- 1` cannot underflow.) -/
def alignedNextAddr (next align : Nat) : Nat :=
  ((next + align - 1) % 2 ^ 64) &&& notAlignMask align

/-- The body of `ByteAllocator::alloc`: the round-robin scan
`while tried_regions != self.bitmap { .. }`, with an explicit probe
budget (`fuel`).  Arguments after the budget: the running `region_idx`
and `tried_regions` variables of the source. -/
def EarlyAllocator.allocLoop (s : EarlyAllocator) (size align : Nat) :
    Nat → Nat → Nat → AllocResult
  | fuel, region_idx, tried_regions =>
    if tried_regions = s.bitmap then .err .NoMemory s
    else
      match fuel with
      | 0 => .spin
      | fuel + 1 =>
        let cont := s.allocLoop size align fuel
          ((region_idx + 1) % 64) (tried_regions ||| (1 <<< region_idx))
        if s.bitmap &&& (1 <<< region_idx) ≠ 0 then
          let region := s.regions.getD region_idx Region.empty
          let aligned_next := alignedNextAddr region.next align
          if (aligned_next + size) % 2 ^ 64 ≤ region.«end» then
            if aligned_next = 0 then .panicked
            else
              .ok aligned_next
                { s with
                  regions := s.regions.set region_idx
                    { region with next := (aligned_next + size) % 2 ^ 64 }
                  used_size := (s.used_size + size) % 2 ^ 64 }
          else cont
        else cont

/-- `ByteAllocator::alloc(&mut self, layout)`, with the layout's size and
alignment passed as the two arguments.  The scan starts at
`self.current_region` with `tried_regions = 0`. -/
def EarlyAllocator.alloc (s : EarlyAllocator) (size align : Nat) : AllocResult :=
  s.allocLoop size align 64 s.current_region 0

/-- `ByteAllocator::dealloc`: the body is empty. -/
def EarlyAllocator.dealloc (s : EarlyAllocator) (_pos _size _align : Nat) : EarlyAllocator := s

/-- `ByteAllocator::total_bytes`. -/
def EarlyAllocator.total_bytes (s : EarlyAllocator) : Nat := s.total_size

/-- `ByteAllocator::used_bytes`. -/
def EarlyAllocator.used_bytes (s : EarlyAllocator) : Nat := s.used_size

/-- `ByteAllocator::available_bytes`: `self.total_size - self.used_size`
(a `usize` subtraction; on every reachable state `used_size ≤ total_size`,
so the subtraction does not underflow). -/
def EarlyAllocator.available_bytes (s : EarlyAllocator) : Nat :=
  s.total_size - s.used_size

/-- `core::alloc::Layout` (size and alignment, as integers). -/
structure Layout where
  size : Nat
  align : Nat
deriving DecidableEq, Repr

/-- `isize::MAX as usize`. -/
def isizeMax : Nat := 2 ^ 63 - 1

/-- `usize::is_power_of_two`, in extensional form: the `usize` powers of
two are exactly the values `2 ^ a` with `a < 64`. -/
def isPow2 (n : Nat) : Bool := decide (∃ a ∈ Finset.range 64, n = 2 ^ a)

/-- `Layout::from_size_align(size, align)` (Rust std): succeeds exactly
when `align` is a power of two and `size ≤ isize::MAX - (align - 1)`
(so that `size` rounded up to `align` does not overflow `isize`). -/
def Layout.from_size_align (size align : Nat) : Option Layout :=
  if isPow2 align ∧ size ≤ isizeMax - (align - 1) then some { size := size, align := align }
  else none

/-- `PageAllocator::alloc_pages(&mut self, num_pages, align_pow2)` for page
size `PS`: build `Layout::from_size_align(num_pages * PAGE_SIZE,
1 << align_pow2).unwrap()` and delegate to `alloc`; the returned pointer is
the address itself (`ptr.as_ptr() as usize`).  The failed `.unwrap()` is the
`panicked` result.  (`num_pages * PAGE_SIZE` is a `usize` multiplication;
the shift is exact for `align_pow2 < 64`, and for `align_pow2 ≥ 64` the
source's shift itself already overflows.) -/
def EarlyAllocator.alloc_pages (PS : Nat) (s : EarlyAllocator)
    (num_pages align_pow2 : Nat) : AllocResult :=
  match Layout.from_size_align ((num_pages * PS) % 2 ^ 64) (1 <<< align_pow2) with
  | none => .panicked
  | some layout => s.alloc layout.size layout.align

/-- `PageAllocator::dealloc_pages`: the body is empty. -/
def EarlyAllocator.dealloc_pages (s : EarlyAllocator) (_pos _num_pages : Nat) :
    EarlyAllocator := s

/-- `PageAllocator::total_pages`. -/
def EarlyAllocator.total_pages (PS : Nat) (s : EarlyAllocator) : Nat := s.total_bytes / PS

/-- `PageAllocator::used_pages`. -/
def EarlyAllocator.used_pages (PS : Nat) (s : EarlyAllocator) : Nat := s.used_bytes / PS

/-- `PageAllocator::available_pages`. -/
def EarlyAllocator.available_pages (PS : Nat) (s : EarlyAllocator) : Nat :=
  s.available_bytes / PS

/-- The slot `i` of the region table (`self.regions[i]`). -/
def EarlyAllocator.regionAt (s : EarlyAllocator) (i : Nat) : Region :=
  s.regions.getD i Region.empty

/-- The invariant of a Rust `Layout` value: the alignment is a power of two
and the size rounded up to it stays within `isize::MAX`.  Every layout a
caller can hand to `alloc` satisfies this (it is enforced by
`Layout::from_size_align`). -/
def LayoutWf (size align : Nat) : Prop :=
  isPow2 align = true ∧ size ≤ isizeMax - (align - 1)

instance (size align : Nat) : Decidable (LayoutWf size align) := by
  unfold LayoutWf
  infer_instance

/-! ## Bit-level helper lemmas -/

theorem one_shiftLeft_eq (i : Nat) : (1 <<< i) = 2 ^ i := by
  rw [Nat.shiftLeft_eq, one_mul]

theorem and_one_shift_ne_zero (x i : Nat) :
    (x &&& (1 <<< i) ≠ 0) ↔ x.testBit i = true := by
  rw [one_shiftLeft_eq, Nat.and_two_pow]
  have := Nat.two_pow_pos i
  cases h : x.testBit i
  · simp
  · simp

theorem two_pow_sub_one_lor_self (i : Nat) :
    (2 ^ i - 1) ||| (1 <<< i) = 2 ^ (i + 1) - 1 := by
  rw [one_shiftLeft_eq]
  apply Nat.eq_of_testBit_eq
  intro j
  rw [Nat.testBit_lor, Nat.testBit_two_pow_sub_one, Nat.testBit_two_pow_sub_one,
    Nat.testBit_two_pow]
  by_cases h1 : j < i <;> by_cases h2 : i = j <;> simp [h1, h2] <;> omega

theorem testBit_contig_lt {k i : Nat} : (2 ^ k - 1).testBit i = true ↔ i < k := by
  rw [Nat.testBit_two_pow_sub_one]
  simp

theorem notAlignMask_two_pow {a : Nat} (ha : a ≤ 64) :
    notAlignMask (2 ^ a) = (2 ^ (64 - a) - 1) <<< a := by
  have h2 : 2 ^ (64 - a) * 2 ^ a = 2 ^ 64 := by
    rw [← pow_add]
    congr 1
    omega
  have h4 : (2 ^ (64 - a) - 1) * 2 ^ a = 2 ^ 64 - 2 ^ a := by
    rw [Nat.sub_mul, h2, one_mul]
  have h1 : (0 : Nat) < 2 ^ a := Nat.two_pow_pos a
  rw [Nat.shiftLeft_eq, notAlignMask, h4]
  omega

theorem land_notAlignMask {a y : Nat} (ha : a ≤ 64) (hy : y < 2 ^ 64) :
    y &&& notAlignMask (2 ^ a) = y - y % 2 ^ a := by
  have hmod : y - y % 2 ^ a = (y >>> a) <<< a := by
    have h := Nat.sub_eq_of_eq_add (Nat.div_add_mod y (2 ^ a)).symm
    rw [Nat.shiftRight_eq_div_pow, Nat.shiftLeft_eq, h, mul_comm]
  rw [hmod, notAlignMask_two_pow ha]
  apply Nat.eq_of_testBit_eq
  intro i
  rw [Nat.testBit_land, Nat.testBit_shiftLeft, Nat.testBit_shiftLeft,
    Nat.testBit_shiftRight, Nat.testBit_two_pow_sub_one]
  by_cases hia : a ≤ i
  · have hsum : a + (i - a) = i := by omega
    by_cases hi64 : i < 64
    · simp [hia, hsum, ge_iff_le]
      omega
    · have hyi : y.testBit i = false := by
        apply Nat.testBit_eq_false_of_lt
        calc y < 2 ^ 64 := hy
          _ ≤ 2 ^ i := Nat.pow_le_pow_right (by norm_num) (by omega)
      simp [hia, hsum, ge_iff_le, hyi]
  · simp [ge_iff_le, hia]

/-! ## Alignment arithmetic -/

/-- Whatever the inputs, the candidate address produced for a power-of-two
alignment `2 ^ a` is a multiple of `2 ^ a`. -/
theorem alignedNextAddr_mod {y a : Nat} (ha : a ≤ 64) :
    alignedNextAddr y (2 ^ a) % 2 ^ a = 0 := by
  have hy : (y + 2 ^ a - 1) % 2 ^ 64 < 2 ^ 64 := Nat.mod_lt _ (Nat.two_pow_pos 64)
  rw [alignedNextAddr, land_notAlignMask ha hy]
  set z := (y + 2 ^ a - 1) % 2 ^ 64 with hz
  have h := Nat.sub_eq_of_eq_add (Nat.div_add_mod z (2 ^ a)).symm
  rw [h, Nat.mul_mod_right]

/-- With no wrap-around, `alignedNextAddr` is the usual round-up:
`next ≤ alignedNextAddr next (2^a) ≤ next + 2^a - 1`, and the result is the
unique multiple of `2^a` in that window. -/
theorem alignedNextAddr_eq {n a : Nat} (ha : a ≤ 64)
    (hnw : n + 2 ^ a - 1 < 2 ^ 64) :
    alignedNextAddr n (2 ^ a) =
      (n + 2 ^ a - 1) - (n + 2 ^ a - 1) % 2 ^ a := by
  rw [alignedNextAddr, Nat.mod_eq_of_lt hnw, land_notAlignMask ha hnw]

theorem alignedNextAddr_ge {n a : Nat} (ha : a ≤ 64)
    (hnw : n + 2 ^ a - 1 < 2 ^ 64) :
    n ≤ alignedNextAddr n (2 ^ a) := by
  rw [alignedNextAddr_eq ha hnw]
  have h1 : (n + 2 ^ a - 1) % 2 ^ a < 2 ^ a := Nat.mod_lt _ (Nat.two_pow_pos a)
  have h2 : (0 : Nat) < 2 ^ a := Nat.two_pow_pos a
  omega

theorem alignedNextAddr_le {n a : Nat} (ha : a ≤ 64)
    (hnw : n + 2 ^ a - 1 < 2 ^ 64) :
    alignedNextAddr n (2 ^ a) ≤ n + 2 ^ a - 1 := by
  rw [alignedNextAddr_eq ha hnw]
  omega

/-! ## Facts about `Layout` well-formedness -/

theorem LayoutWf.exists_pow {size align : Nat} (h : LayoutWf size align) :
    ∃ a, a < 64 ∧ align = 2 ^ a := by
  have h1 := h.1
  rw [isPow2, decide_eq_true_iff] at h1
  obtain ⟨a, ha, rfl⟩ := h1
  exact ⟨a, Finset.mem_range.mp ha, rfl⟩

theorem LayoutWf.align_pos {size align : Nat} (h : LayoutWf size align) : 0 < align := by
  obtain ⟨a, _, rfl⟩ := h.exists_pow
  exact Nat.two_pow_pos a

theorem LayoutWf.align_le {size align : Nat} (h : LayoutWf size align) :
    align ≤ 2 ^ 63 := by
  obtain ⟨a, ha, rfl⟩ := h.exists_pow
  exact Nat.pow_le_pow_right (by norm_num) (by omega)

theorem LayoutWf.size_add_align_le {size align : Nat} (h : LayoutWf size align) :
    size + align ≤ 2 ^ 63 := by
  have h1 := h.2
  have h2 := h.align_le
  have h3 := h.align_pos
  rw [isizeMax] at h1
  omega

theorem Layout.from_size_align_some {size align : Nat} {l : Layout}
    (h : Layout.from_size_align size align = some l) :
    l.size = size ∧ l.align = align ∧ LayoutWf size align := by
  rw [Layout.from_size_align] at h
  split at h
  · cases h
    exact ⟨rfl, rfl, by constructor <;> simp_all⟩
  · cases h

/-! ## List-access helpers -/

theorem getD_set_self (l : List Region) (i : Nat) (r : Region) (h : i < l.length) :
    (l.set i r).getD i Region.empty = r := by
  rw [List.getD_eq_getElem?_getD, List.getElem?_set_self h]
  rfl

theorem getD_set_ne (l : List Region) {i j : Nat} (r : Region) (h : i ≠ j) :
    (l.set i r).getD j Region.empty = l.getD j Region.empty := by
  rw [List.getD_eq_getElem?_getD, List.getElem?_set_ne h, ← List.getD_eq_getElem?_getD]

/-! ## Unfolding and inversion lemmas for the allocation scan -/

/-- The state produced by a successful probe of region `j`. -/
def EarlyAllocator.bumped (s : EarlyAllocator) (j size : Nat) (addr : Nat) : EarlyAllocator :=
  { s with
    regions := s.regions.set j { s.regionAt j with next := (addr + size) % 2 ^ 64 }
    used_size := (s.used_size + size) % 2 ^ 64 }

theorem allocLoop_zero (s : EarlyAllocator) (size align idx tried : Nat) :
    s.allocLoop size align 0 idx tried =
      if tried = s.bitmap then .err .NoMemory s else .spin := rfl

theorem allocLoop_succ (s : EarlyAllocator) (size align fuel idx tried : Nat) :
    s.allocLoop size align (fuel + 1) idx tried =
      if tried = s.bitmap then .err .NoMemory s
      else if s.bitmap &&& (1 <<< idx) ≠ 0 then
        if (alignedNextAddr (s.regionAt idx).next align + size) % 2 ^ 64 ≤
            (s.regionAt idx).«end» then
          if alignedNextAddr (s.regionAt idx).next align = 0 then .panicked
          else .ok (alignedNextAddr (s.regionAt idx).next align)
            (s.bumped idx size (alignedNextAddr (s.regionAt idx).next align))
        else s.allocLoop size align fuel ((idx + 1) % 64) (tried ||| (1 <<< idx))
      else s.allocLoop size align fuel ((idx + 1) % 64) (tried ||| (1 <<< idx)) := rfl

/-- A successful scan bumped exactly one active region: the address returned
is that region's aligned cursor, it is nonzero, the bump fits below the
region's `end`, and the new state is the corresponding single-slot update. -/
theorem allocLoop_ok_inv {s s' : EarlyAllocator} {size align addr : Nat} :
    ∀ {fuel idx tried : Nat}, idx < 64 →
    s.allocLoop size align fuel idx tried = .ok addr s' →
    ∃ j, j < 64 ∧ s.bitmap.testBit j = true ∧
      addr = alignedNextAddr (s.regionAt j).next align ∧ addr ≠ 0 ∧
      (addr + size) % 2 ^ 64 ≤ (s.regionAt j).«end» ∧
      s' = s.bumped j size addr := by
  intro fuel
  induction fuel with
  | zero =>
    intro idx tried _ h
    rw [allocLoop_zero] at h
    split at h <;> cases h
  | succ fuel ih =>
    intro idx tried hidx h
    rw [allocLoop_succ] at h
    split at h
    · cases h
    · split at h
      · split at h
        · split at h
          · cases h
          · rw [AllocResult.ok.injEq] at h
            rename_i hbit hfit hzero
            refine ⟨idx, hidx, (and_one_shift_ne_zero _ _).mp hbit, h.1.symm, ?_, ?_, ?_⟩
            · rw [h.1] at hzero; exact hzero
            · rw [h.1] at hfit; exact hfit
            · have h2 := h.2
              rw [h.1] at h2
              exact h2.symm
        · exact ih (Nat.mod_lt _ (by norm_num)) h
      · exact ih (Nat.mod_lt _ (by norm_num)) h

/-- A failed scan reports `NoMemory` and returns the allocator unchanged. -/
theorem allocLoop_err_inv {s s'' : EarlyAllocator} {size align : Nat} {e : AllocError} :
    ∀ {fuel idx tried : Nat},
    s.allocLoop size align fuel idx tried = .err e s'' →
    e = .NoMemory ∧ s'' = s := by
  intro fuel
  induction fuel with
  | zero =>
    intro idx tried h
    rw [allocLoop_zero] at h
    split at h
    · rw [AllocResult.err.injEq] at h
      exact ⟨h.1.symm, h.2.symm⟩
    · cases h
  | succ fuel ih =>
    intro idx tried h
    rw [allocLoop_succ] at h
    split at h
    · rw [AllocResult.err.injEq] at h
      exact ⟨h.1.symm, h.2.symm⟩
    · split at h
      · split at h
        · split at h <;> cases h
        · exact ih h
      · exact ih h

/-- A scan can abort (`NonNull::new(..).unwrap()`) only if some active
region's aligned cursor evaluated to address zero while the size check
passed. -/
theorem allocLoop_panicked_inv {s : EarlyAllocator} {size align : Nat} :
    ∀ {fuel idx tried : Nat}, idx < 64 →
    s.allocLoop size align fuel idx tried = .panicked →
    ∃ j, j < 64 ∧ s.bitmap.testBit j = true ∧
      alignedNextAddr (s.regionAt j).next align = 0 ∧
      (alignedNextAddr (s.regionAt j).next align + size) % 2 ^ 64 ≤ (s.regionAt j).«end» := by
  intro fuel
  induction fuel with
  | zero =>
    intro idx tried _ h
    rw [allocLoop_zero] at h
    split at h <;> cases h
  | succ fuel ih =>
    intro idx tried hidx h
    rw [allocLoop_succ] at h
    split at h
    · cases h
    · split at h
      · split at h
        · split at h
          · rename_i hbit hfit hzero
            exact ⟨idx, hidx, (and_one_shift_ne_zero _ _).mp hbit, hzero, hfit⟩
          · cases h
        · exact ih (Nat.mod_lt _ (by norm_num)) h
      · exact ih (Nat.mod_lt _ (by norm_num)) h

theorem allocLoop_tried_eq {s : EarlyAllocator} {size align fuel idx tried : Nat}
    (h : tried = s.bitmap) :
    s.allocLoop size align fuel idx tried = .err .NoMemory s := by
  cases fuel with
  | zero => rw [allocLoop_zero, if_pos h]
  | succ fuel => rw [allocLoop_succ, if_pos h]

/-- Termination of the scan: starting the probe sequence at slot `i` with
`tried_regions = 2^i - 1` against a contiguous bitmap `2^K - 1`, the loop
leaves within its probe budget. -/
theorem allocLoop_no_spin_aux (s : EarlyAllocator) (size align K : Nat)
    (hbm : s.bitmap = 2 ^ K - 1) (hK : K ≤ 64) :
    ∀ n i, i ≤ K → n = K - i →
      s.allocLoop size align (64 - i) i (2 ^ i - 1) ≠ .spin := by
  intro n
  induction n with
  | zero =>
    intro i hi hn
    have hKi : i = K := by omega
    rw [allocLoop_tried_eq (by rw [hbm, hKi])]
    simp
  | succ n ih =>
    intro i hi hn
    have hiK : i < K := by omega
    have hfuel : 64 - i = (64 - (i + 1)) + 1 := by omega
    have hne : ¬(2 ^ i - 1 = s.bitmap) := by
      rw [hbm]
      have h1 : (2 : Nat) ^ i < 2 ^ K := Nat.pow_lt_pow_right (by norm_num) hiK
      have h2 : (0 : Nat) < 2 ^ i := Nat.two_pow_pos i
      omega
    have hcont : s.allocLoop size align (64 - (i + 1)) ((i + 1) % 64)
        ((2 ^ i - 1) ||| (1 <<< i)) ≠ .spin := by
      rw [two_pow_sub_one_lor_self]
      by_cases h64 : i + 1 < 64
      · rw [Nat.mod_eq_of_lt h64]
        exact ih (i + 1) (by omega) (by omega)
      · have hK64 : K = 64 := by omega
        have hi63 : i + 1 = 64 := by omega
        rw [hi63, allocLoop_tried_eq (by rw [hbm, hK64])]
        simp
    rw [hfuel, allocLoop_succ, if_neg hne]
    split
    · split
      · split
        · simp
        · simp
      · exact hcont
    · exact hcont

/-! ## Operational steps and reachability

`Step s s'` holds when one call of the public interface can turn state `s`
into state `s'` (for fallible calls, both the success and the failure
outcome give a step; aborting outcomes produce no successor state).
`Reachable` is the set of states obtainable from `EarlyAllocator::new()`.
No restriction is placed on the caller's arguments here. -/

inductive Step : EarlyAllocator → EarlyAllocator → Prop where
  | init (s : EarlyAllocator) (start size : Nat) : Step s (s.init start size)
  | add_memory_ok (s s' : EarlyAllocator) (start size : Nat) :
      s.add_memory start size = .ok s' → Step s s'
  | add_memory_err (s : EarlyAllocator) (start size : Nat) (e : AllocError) :
      s.add_memory start size = .error e → Step s s
  | alloc_ok (s s' : EarlyAllocator) (size align addr : Nat) :
      s.alloc size align = .ok addr s' → Step s s'
  | alloc_err (s s' : EarlyAllocator) (size align : Nat) (e : AllocError) :
      s.alloc size align = .err e s' → Step s s'
  | dealloc (s : EarlyAllocator) (pos size align : Nat) :
      Step s (s.dealloc pos size align)
  | alloc_pages_ok (s s' : EarlyAllocator) (PS num_pages align_pow2 addr : Nat) :
      s.alloc_pages PS num_pages align_pow2 = .ok addr s' → Step s s'
  | alloc_pages_err (s s' : EarlyAllocator) (PS num_pages align_pow2 : Nat) (e : AllocError) :
      s.alloc_pages PS num_pages align_pow2 = .err e s' → Step s s'
  | dealloc_pages (s : EarlyAllocator) (pos num_pages : Nat) :
      Step s (s.dealloc_pages pos num_pages)

inductive Reachable : EarlyAllocator → Prop where
  | new : Reachable EarlyAllocator.new
  | step {s s' : EarlyAllocator} : Reachable s → Step s s' → Reachable s'

/-- The structural part of the state invariant: the search cursor is pinned
at slot 0 and the active bitset is a contiguous block of low bits. -/
def CursorContig (s : EarlyAllocator) : Prop :=
  s.current_region = 0 ∧ ∃ k, k ≤ 64 ∧ s.bitmap = 2 ^ k - 1

/-! ## Characterisation of `add_memory` on contiguous bitmaps -/

theorem add_memory_from_zero (s : EarlyAllocator) (start size idx : Nat) :
    s.add_memory_from start size 0 idx = .error .NoMemory := rfl

theorem add_memory_from_succ (s : EarlyAllocator) (start size fuel idx : Nat) :
    s.add_memory_from start size (fuel + 1) idx =
      if s.bitmap &&& (1 <<< idx) = 0 then
        .ok { s with
              regions := s.regions.set idx
                { start := start, «end» := (start + size) % 2 ^ 64, next := start }
              bitmap := s.bitmap ||| (1 <<< idx)
              total_size := (s.total_size + size) % 2 ^ 64 }
      else s.add_memory_from start size fuel (idx + 1) := rfl

/-- The state `add_memory` produces when it installs into slot `k`. -/
def EarlyAllocator.installed (s : EarlyAllocator) (k start size : Nat) : EarlyAllocator :=
  { s with
    regions := s.regions.set k
      { start := start, «end» := (start + size) % 2 ^ 64, next := start }
    bitmap := s.bitmap ||| (1 <<< k)
    total_size := (s.total_size + size) % 2 ^ 64 }

theorem add_memory_from_spec (s : EarlyAllocator) (start size K : Nat)
    (hbm : s.bitmap = 2 ^ K - 1) (hK : K ≤ 64) :
    ∀ n idx, idx ≤ K → n = K - idx →
      s.add_memory_from start size (64 - idx) idx =
        if K < 64 then .ok (s.installed K start size) else .error .NoMemory := by
  intro n
  induction n with
  | zero =>
    intro idx hidx hn
    have hKi : idx = K := by omega
    subst hKi
    by_cases hlt : idx < 64
    · have hfuel : 64 - idx = (64 - (idx + 1)) + 1 := by omega
      rw [hfuel, add_memory_from_succ, if_pos hlt]
      have hfree : s.bitmap &&& (1 <<< idx) = 0 := by
        have hne : ¬(s.bitmap &&& (1 <<< idx) ≠ 0) := by
          intro hcon
          have hbit := (and_one_shift_ne_zero _ _).mp hcon
          rw [hbm] at hbit
          exact absurd (testBit_contig_lt.mp hbit) (by omega)
        exact not_not.mp hne
      rw [if_pos hfree]
      rfl
    · have hfuel : 64 - idx = 0 := by omega
      rw [hfuel, add_memory_from_zero, if_neg hlt]
  | succ n ih =>
    intro idx hidx hn
    have hiK : idx < K := by omega
    have hfuel : 64 - idx = (64 - (idx + 1)) + 1 := by omega
    rw [hfuel, add_memory_from_succ]
    have hocc : ¬(s.bitmap &&& (1 <<< idx) = 0) := by
      have hbit : s.bitmap.testBit idx = true := by
        rw [hbm]
        exact testBit_contig_lt.mpr hiK
      intro hcon
      exact absurd hcon (by
        have := (and_one_shift_ne_zero s.bitmap idx).mpr hbit
        exact this)
    rw [if_neg hocc]
    exact ih (idx + 1) (by omega) (by omega)

/-- `add_memory` on a contiguous bitmap `2^K - 1`: if a slot is free the
first free slot is `K` and the region is installed there; with a full
table the call fails with `AllocError::NoMemory` — the very same error
value that a failed allocation produces. -/
theorem add_memory_spec (s : EarlyAllocator) (start size K : Nat)
    (hbm : s.bitmap = 2 ^ K - 1) (hK : K ≤ 64) :
    s.add_memory start size =
      if K < 64 then .ok (s.installed K start size) else .error .NoMemory :=
  add_memory_from_spec s start size K hbm hK K 0 (by omega) (by omega)

/-! ## Preservation of the structural invariant -/

theorem alloc_def (s : EarlyAllocator) (size align : Nat) :
    s.alloc size align = s.allocLoop size align 64 s.current_region 0 := rfl

theorem alloc_pages_def (s : EarlyAllocator) (PS num_pages align_pow2 : Nat) :
    s.alloc_pages PS num_pages align_pow2 =
      match Layout.from_size_align ((num_pages * PS) % 2 ^ 64) (1 <<< align_pow2) with
      | none => .panicked
      | some layout => s.alloc layout.size layout.align := rfl

theorem alloc_pages_of_none {s : EarlyAllocator} {PS num_pages align_pow2 : Nat}
    (hl : Layout.from_size_align ((num_pages * PS) % 2 ^ 64) (1 <<< align_pow2) = none) :
    s.alloc_pages PS num_pages align_pow2 = .panicked := by
  rw [alloc_pages_def, hl]

theorem alloc_pages_of_some {s : EarlyAllocator} {PS num_pages align_pow2 : Nat}
    {layout : Layout}
    (hl : Layout.from_size_align ((num_pages * PS) % 2 ^ 64) (1 <<< align_pow2) = some layout) :
    s.alloc_pages PS num_pages align_pow2 = s.alloc layout.size layout.align := by
  rw [alloc_pages_def, hl]

theorem cursorContig_step {s s' : EarlyAllocator}
    (hP : CursorContig s) (hs : Step s s') : CursorContig s' := by
  obtain ⟨hcur, k, hk, hbm⟩ := hP
  cases hs with
  | init start size =>
    exact ⟨rfl, 1, by omega, rfl⟩
  | add_memory_ok s' start size h =>
    rw [add_memory_spec s start size k hbm hk] at h
    split at h
    · rw [Except.ok.injEq] at h
      subst h
      refine ⟨hcur, k + 1, by omega, ?_⟩
      show s.bitmap ||| (1 <<< k) = 2 ^ (k + 1) - 1
      rw [hbm, two_pow_sub_one_lor_self]
    · cases h
  | add_memory_err start size e h =>
    exact ⟨hcur, k, hk, hbm⟩
  | alloc_ok s' size align addr h =>
    rw [alloc_def, hcur] at h
    obtain ⟨j, _, _, _, _, _, hs'⟩ := allocLoop_ok_inv (by norm_num) h
    subst hs'
    exact ⟨hcur, k, hk, hbm⟩
  | alloc_err s' size align e h =>
    rw [alloc_def] at h
    obtain ⟨_, hss⟩ := allocLoop_err_inv h
    subst hss
    exact ⟨hcur, k, hk, hbm⟩
  | dealloc pos size align =>
    exact ⟨hcur, k, hk, hbm⟩
  | alloc_pages_ok s' PS num_pages align_pow2 addr h =>
    cases hl : Layout.from_size_align ((num_pages * PS) % 2 ^ 64) (1 <<< align_pow2) with
    | none => rw [alloc_pages_of_none hl] at h; cases h
    | some layout =>
      rw [alloc_pages_of_some hl, alloc_def, hcur] at h
      obtain ⟨j, _, _, _, _, _, hs'⟩ := allocLoop_ok_inv (by norm_num) h
      subst hs'
      exact ⟨hcur, k, hk, hbm⟩
  | alloc_pages_err s' PS num_pages align_pow2 e h =>
    cases hl : Layout.from_size_align ((num_pages * PS) % 2 ^ 64) (1 <<< align_pow2) with
    | none => rw [alloc_pages_of_none hl] at h; cases h
    | some layout =>
      rw [alloc_pages_of_some hl, alloc_def] at h
      obtain ⟨_, hss⟩ := allocLoop_err_inv h
      subst hss
      exact ⟨hcur, k, hk, hbm⟩
  | dealloc_pages pos num_pages =>
    exact ⟨hcur, k, hk, hbm⟩

theorem reachable_cursorContig {s : EarlyAllocator} (h : Reachable s) :
    CursorContig s := by
  induction h with
  | new => exact ⟨rfl, 0, by omega, rfl⟩
  | step _ hstep ih => exact cursorContig_step ih hstep

/-! ## The arithmetic state invariant -/

/-- Sum of `f` over the active slots of a bitmap/table pair. -/
def sumA (bm : Nat) (regions : List Region) (f : Region → Nat) : Nat :=
  ∑ i in Finset.range 64, if bm.testBit i then f (regions.getD i Region.empty) else 0

/-- Sum of `f` over the allocator's active regions. -/
def sumActive (s : EarlyAllocator) (f : Region → Nat) : Nat :=
  sumA s.bitmap s.regions f

/-- The data-model invariant of the spec, together with the bounds under
which the allocator's `usize` arithmetic stays below `2^64` (every region
lies inside the lower half of the address space, as a region reaching
beyond `2^63` could not serve Rust-`Layout`-sized objects):
cursor pinned at 0, table length 64, contiguous bitmap, `start ≤ next ≤ end`
per active region, `total_size = Σ (end - start)`, and the used/remaining
accounting `used_size + Σ (end - next) ≤ total_size` (which subsumes
`used_size ≤ total_size`). -/
def Inv (s : EarlyAllocator) : Prop :=
  s.current_region = 0 ∧
  s.regions.length = 64 ∧
  (∃ k ∈ Finset.range 65, s.bitmap = 2 ^ k - 1) ∧
  (∀ i ∈ Finset.range 64, s.bitmap.testBit i = true →
      (s.regionAt i).start ≤ (s.regionAt i).next ∧
      (s.regionAt i).next ≤ (s.regionAt i).«end» ∧
      (s.regionAt i).«end» ≤ 2 ^ 63) ∧
  s.total_size = sumActive s (fun r => r.«end» - r.start) ∧
  s.used_size + sumActive s (fun r => r.«end» - r.next) ≤ s.total_size ∧
  s.total_size ≤ 2 ^ 63

/-- `next` cursors never move backwards. -/
def NextMono (s s' : EarlyAllocator) : Prop :=
  ∀ i, i < 64 → (s.regionAt i).next ≤ (s'.regionAt i).next

instance (s : EarlyAllocator) : Decidable (Inv s) := by
  unfold Inv
  infer_instance

/-! ### Sum manipulation lemmas -/

theorem sumA_congr_erase (bm : Nat) (regions : List Region) (f : Region → Nat)
    {j : Nat} (r : Region) :
    (∑ i in (Finset.range 64).erase j,
        if bm.testBit i then f ((regions.set j r).getD i Region.empty) else 0) =
      ∑ i in (Finset.range 64).erase j,
        if bm.testBit i then f (regions.getD i Region.empty) else 0 := by
  apply Finset.sum_congr rfl
  intro i hi
  have hne : j ≠ i := fun hc => (Finset.mem_erase.mp hi).1 hc.symm
  rw [getD_set_ne regions r hne]

/-- Updating an active slot: stated additively to stay inside `Nat`. -/
theorem sumA_update (bm : Nat) (regions : List Region) (f : Region → Nat)
    {j : Nat} (r : Region) (hj64 : j < 64) (hjlen : j < regions.length)
    (hbit : bm.testBit j = true) :
    sumA bm (regions.set j r) f + f (regions.getD j Region.empty) =
      sumA bm regions f + f r := by
  have hmem : j ∈ Finset.range 64 := Finset.mem_range.mpr hj64
  rw [sumA, sumA, ← Finset.add_sum_erase _ _ hmem, ← Finset.add_sum_erase _ _ hmem,
    sumA_congr_erase bm regions f r, if_pos hbit, if_pos hbit]
  rw [List.getD_eq_getElem?_getD, List.getElem?_set_self hjlen]
  show f r + _ + _ = _
  omega

/-- Installing a region into an inactive slot adds its contribution. -/
theorem sumA_install (bm : Nat) (regions : List Region) (f : Region → Nat)
    {k : Nat} (r : Region) (hk64 : k < 64) (hklen : k < regions.length)
    (hbit : bm.testBit k = false) :
    sumA (bm ||| (1 <<< k)) (regions.set k r) f = sumA bm regions f + f r := by
  have hmem : k ∈ Finset.range 64 := Finset.mem_range.mpr hk64
  have htb : ∀ i, (bm ||| (1 <<< k)).testBit i = (bm.testBit i || decide (k = i)) := by
    intro i
    rw [one_shiftLeft_eq, Nat.testBit_lor, Nat.testBit_two_pow]
  rw [sumA, sumA, ← Finset.add_sum_erase _ _ hmem, ← Finset.add_sum_erase _ _ hmem]
  have herase : (∑ i in (Finset.range 64).erase k,
      if (bm ||| (1 <<< k)).testBit i then f ((regions.set k r).getD i Region.empty) else 0) =
      ∑ i in (Finset.range 64).erase k,
        if bm.testBit i then f (regions.getD i Region.empty) else 0 := by
    apply Finset.sum_congr rfl
    intro i hi
    have hne : k ≠ i := fun hc => (Finset.mem_erase.mp hi).1 hc.symm
    rw [htb i, getD_set_ne regions r hne]
    have : decide (k = i) = false := decide_eq_false hne
    rw [this, Bool.or_false]
  rw [herase, htb k, hbit, decide_eq_true_eq.mpr rfl]
  rw [if_pos (by simp), if_neg (by simp [hbit]),
    getD_set_self regions k r hklen]
  omega

/-- A single-slot bitmap (`bitmap = 1`, as `init` installs) sums to the
slot-0 contribution. -/
theorem sumA_one (regions : List Region) (f : Region → Nat) (r : Region)
    (h0 : 0 < regions.length) :
    sumA 1 (regions.set 0 r) f = f r := by
  rw [sumA]
  rw [Finset.sum_eq_single_of_mem 0 (Finset.mem_range.mpr (by norm_num))]
  · have : (1 : Nat).testBit 0 = true := by decide
    rw [this, if_pos rfl, getD_set_self regions 0 r h0]
  · intro i _ hne
    have : (1 : Nat).testBit i = false := by
      have h1 : (1 : Nat) = 2 ^ 0 := rfl
      rw [h1, Nat.testBit_two_pow]
      exact decide_eq_false fun hc => hne hc.symm
    rw [this]
    simp

/-- An empty bitmap sums to zero. -/
theorem sumA_zero_bitmap (regions : List Region) (f : Region → Nat) :
    sumA 0 regions f = 0 := by
  rw [sumA]
  apply Finset.sum_eq_zero
  intro i _
  rw [Nat.zero_testBit]
  simp

/-- One active slot's contribution is at most the whole sum. -/
theorem sumA_single_le (bm : Nat) (regions : List Region) (f : Region → Nat)
    {j : Nat} (hj64 : j < 64) (hbit : bm.testBit j = true) :
    f (regions.getD j Region.empty) ≤ sumA bm regions f := by
  have hmem : j ∈ Finset.range 64 := Finset.mem_range.mpr hj64
  calc f (regions.getD j Region.empty)
      = (if bm.testBit j then f (regions.getD j Region.empty) else 0) := by rw [if_pos hbit]
    _ ≤ sumA bm regions f :=
        Finset.single_le_sum (f := fun i => if bm.testBit i then f (regions.getD i Region.empty) else 0)
          (fun i _ => Nat.zero_le _) hmem

theorem testBit_contig_ge {k i : Nat} (h : k ≤ i) : (2 ^ k - 1).testBit i = false := by
  rw [Nat.testBit_two_pow_sub_one]
  simp
  omega

theorem testBit_lor_shift (bm k i : Nat) :
    (bm ||| (1 <<< k)).testBit i = (bm.testBit i || decide (k = i)) := by
  rw [one_shiftLeft_eq, Nat.testBit_lor, Nat.testBit_two_pow]

/-! ### Invariant preservation -/

theorem inv_new : Inv EarlyAllocator.new := by decide

theorem inv_init {s : EarlyAllocator} (h : Inv s) {start size : Nat}
    (hb : start + size ≤ 2 ^ 63) : Inv (s.init start size) := by
  obtain ⟨hcur, hlen, _, _, _, _, _⟩ := h
  have hwrap : (start + size) % 2 ^ 64 = start + size := by
    apply Nat.mod_eq_of_lt
    omega
  have h0len : 0 < s.regions.length := by omega
  have hr0 : (s.init start size).regionAt 0 =
      { start := start, «end» := (start + size) % 2 ^ 64, next := start } := by
    rw [EarlyAllocator.regionAt]
    exact getD_set_self _ _ _ h0len
  have htot0 : (s.init start size).total_size = size := rfl
  have hused0 : (s.init start size).used_size = 0 := rfl
  have hsum1 : sumActive (s.init start size) (fun r => r.«end» - r.start) =
      (start + size) % 2 ^ 64 - start := by
    show sumA 1 (s.regions.set 0
      { start := start, «end» := (start + size) % 2 ^ 64, next := start })
      (fun r => r.«end» - r.start) = _
    rw [sumA_one _ _ _ h0len]
  have hsum2 : sumActive (s.init start size) (fun r => r.«end» - r.next) =
      (start + size) % 2 ^ 64 - start := by
    show sumA 1 (s.regions.set 0
      { start := start, «end» := (start + size) % 2 ^ 64, next := start })
      (fun r => r.«end» - r.next) = _
    rw [sumA_one _ _ _ h0len]
  have hregs0 : (s.init start size).regions =
      s.regions.set 0 { start := start, «end» := (start + size) % 2 ^ 64, next := start } := rfl
  refine ⟨rfl, ?_, ⟨1, by decide, rfl⟩, ?_, ?_, ?_, ?_⟩
  · rw [hregs0, List.length_set]
    exact hlen
  · intro i _ hbit
    have hbit' : (2 ^ 0 : Nat).testBit i = true := hbit
    rw [Nat.testBit_two_pow] at hbit'
    have hi0 : i = 0 := by
      have := of_decide_eq_true hbit'
      omega
    subst hi0
    rw [hr0]
    refine ⟨Nat.le_refl _, ?_, ?_⟩
    · show start ≤ (start + size) % 2 ^ 64
      rw [hwrap]
      omega
    · show (start + size) % 2 ^ 64 ≤ 2 ^ 63
      rw [hwrap]
      exact hb
  · rw [htot0, hsum1, hwrap]
    omega
  · rw [hused0, hsum2, htot0, hwrap]
    omega
  · rw [htot0]
    omega

theorem inv_add_ok {s s' : EarlyAllocator} (h : Inv s) {start size : Nat}
    (hb : start + size ≤ 2 ^ 63) (hb2 : s.total_size + size ≤ 2 ^ 63)
    (hok : s.add_memory start size = .ok s') : Inv s' := by
  obtain ⟨hcur, hlen, ⟨k, hk65, hbm⟩, hreg, htot, hused, htb⟩ := h
  have hk : k ≤ 64 := by have := Finset.mem_range.mp hk65; omega
  rw [add_memory_spec s start size k hbm hk] at hok
  by_cases hklt : k < 64
  · rw [if_pos hklt, Except.ok.injEq] at hok
    subst hok
    have hklen : k < s.regions.length := by omega
    have hwrap : (start + size) % 2 ^ 64 = start + size := by
      apply Nat.mod_eq_of_lt
      omega
    have hwrapt : (s.total_size + size) % 2 ^ 64 = s.total_size + size := by
      apply Nat.mod_eq_of_lt
      omega
    have hfree : s.bitmap.testBit k = false := by
      rw [hbm]
      exact testBit_contig_ge (Nat.le_refl k)
    refine ⟨hcur, ?_, ⟨k + 1, Finset.mem_range.mpr (by omega), ?_⟩, ?_, ?_, ?_, ?_⟩
    · show (s.regions.set k _).length = 64
      rw [List.length_set]
      exact hlen
    · show s.bitmap ||| (1 <<< k) = 2 ^ (k + 1) - 1
      rw [hbm, two_pow_sub_one_lor_self]
    · intro i hi hbit
      have hbit2 : (s.bitmap ||| (1 <<< k)).testBit i = true := hbit
      rw [testBit_lor_shift] at hbit2
      have hra : (s.installed k start size).regionAt i =
          (if k = i then { start := start, «end» := (start + size) % 2 ^ 64, next := start }
           else s.regionAt i) := by
        rw [EarlyAllocator.regionAt, EarlyAllocator.regionAt]
        by_cases hik : k = i
        · rw [if_pos hik, ← hik]
          exact getD_set_self _ _ _ hklen
        · rw [if_neg hik]
          exact getD_set_ne _ _ hik
      by_cases hik : k = i
      · rw [hra, if_pos hik]
        refine ⟨Nat.le_refl _, ?_, ?_⟩
        · show start ≤ (start + size) % 2 ^ 64
          rw [hwrap]
          omega
        · show (start + size) % 2 ^ 64 ≤ 2 ^ 63
          rw [hwrap]
          exact hb
      · rw [hra, if_neg hik]
        rcases Bool.or_eq_true_iff.mp hbit2 with hb1 | hb2'
        · exact hreg i hi hb1
        · exact absurd (of_decide_eq_true hb2') hik
    · have htoti : (s.installed k start size).total_size = (s.total_size + size) % 2 ^ 64 := rfl
      have hsumi : sumActive (s.installed k start size) (fun r => r.«end» - r.start) =
          sumA s.bitmap s.regions (fun r => r.«end» - r.start) +
            ((start + size) % 2 ^ 64 - start) :=
        sumA_install _ _ _ _ hklt hklen hfree
      have hconv : sumActive s (fun r => r.«end» - r.start) =
          sumA s.bitmap s.regions (fun r => r.«end» - r.start) := rfl
      rw [hconv] at htot
      rw [htoti, hwrapt, hsumi, hwrap]
      omega
    · have htoti : (s.installed k start size).total_size = (s.total_size + size) % 2 ^ 64 := rfl
      have husedi : (s.installed k start size).used_size = s.used_size := rfl
      have hsumi : sumActive (s.installed k start size) (fun r => r.«end» - r.next) =
          sumA s.bitmap s.regions (fun r => r.«end» - r.next) +
            ((start + size) % 2 ^ 64 - start) :=
        sumA_install _ _ _ _ hklt hklen hfree
      have hconv : sumActive s (fun r => r.«end» - r.next) =
          sumA s.bitmap s.regions (fun r => r.«end» - r.next) := rfl
      rw [hconv] at hused
      rw [htoti, husedi, hwrapt, hsumi, hwrap]
      omega
    · have htoti : (s.installed k start size).total_size = (s.total_size + size) % 2 ^ 64 := rfl
      rw [htoti, hwrapt]
      exact hb2
  · rw [if_neg hklt] at hok
    cases hok

/-- Master characterisation of a successful `alloc` on an invariant-holding
state: the bump happened in some active region `j`, the returned address is
the round-up of its cursor, the whole request fits below `end`, and the
modular arithmetic of the source collapses to exact arithmetic. -/
theorem alloc_ok_spec {s s' : EarlyAllocator} {size align addr : Nat}
    (h : Inv s) (hwf : LayoutWf size align)
    (hok : s.alloc size align = .ok addr s') :
    ∃ j, j < 64 ∧ s.bitmap.testBit j = true ∧
      (s.regionAt j).next ≤ addr ∧
      addr + size ≤ (s.regionAt j).«end» ∧
      addr % align = 0 ∧
      addr ≤ (s.regionAt j).next + align - 1 ∧
      s'.regions = s.regions.set j { s.regionAt j with next := addr + size } ∧
      s'.used_size = s.used_size + size ∧
      s'.bitmap = s.bitmap ∧ s'.current_region = s.current_region ∧
      s'.total_size = s.total_size := by
  obtain ⟨a, ha64, rfl⟩ := hwf.exists_pow
  have hsa : size + 2 ^ a ≤ 2 ^ 63 := hwf.size_add_align_le
  obtain ⟨hcur, hlen, ⟨k, hk65, hbm⟩, hreg, htot, hused, htb⟩ := h
  rw [alloc_def, hcur] at hok
  obtain ⟨j, hj64, hbit, haddr, hne0, hfit, hs'⟩ := allocLoop_ok_inv (by norm_num) hok
  obtain ⟨hstart, hnle, hend⟩ := hreg j (Finset.mem_range.mpr hj64) hbit
  have h2a1 : (0 : Nat) < 2 ^ a := Nat.two_pow_pos a
  have h2a : (2 : Nat) ^ a ≤ 2 ^ 63 := Nat.pow_le_pow_right (by norm_num) (by omega)
  have hxlt : (s.regionAt j).next + 2 ^ a - 1 < 2 ^ 64 := by omega
  have hgen := alignedNextAddr_ge (n := (s.regionAt j).next) (by omega : a ≤ 64) hxlt
  have hlen2 := alignedNextAddr_le (n := (s.regionAt j).next) (by omega : a ≤ 64) hxlt
  have hmoda := alignedNextAddr_mod (y := (s.regionAt j).next) (by omega : a ≤ 64)
  rw [← haddr] at hgen hlen2 hmoda
  have hsum_lt : addr + size < 2 ^ 64 := by omega
  have hfit2 : addr + size ≤ (s.regionAt j).«end» := by
    rw [Nat.mod_eq_of_lt hsum_lt] at hfit
    exact hfit
  have huse_lt : s.used_size + size < 2 ^ 64 := by
    have : s.used_size ≤ s.total_size := by omega
    omega
  subst hs'
  refine ⟨j, hj64, hbit, hgen, hfit2, hmoda, hlen2, ?_, ?_, rfl, rfl, rfl⟩
  · show s.regions.set j { s.regionAt j with next := (addr + size) % 2 ^ 64 } =
      s.regions.set j { s.regionAt j with next := addr + size }
    rw [Nat.mod_eq_of_lt hsum_lt]
  · show (s.used_size + size) % 2 ^ 64 = s.used_size + size
    exact Nat.mod_eq_of_lt huse_lt

theorem inv_alloc_ok {s s' : EarlyAllocator} {size align addr : Nat}
    (h : Inv s) (hwf : LayoutWf size align)
    (hok : s.alloc size align = .ok addr s') : Inv s' ∧ NextMono s s' := by
  obtain ⟨j, hj64, hbit, hge, hle, hmod, haux, hregs, husz, hbmeq, hcureq, htoteq⟩ :=
    alloc_ok_spec h hwf hok
  obtain ⟨hcur, hlen, ⟨k, hk65, hbm⟩, hreg, htot, hused, htb⟩ := h
  obtain ⟨hstart, hnle, hend⟩ := hreg j (Finset.mem_range.mpr hj64) hbit
  have hjlen : j < s.regions.length := by omega
  have hc1 : sumA s.bitmap (s.regions.set j { s.regionAt j with next := addr + size })
      (fun r => r.«end» - r.start) + ((s.regionAt j).«end» - (s.regionAt j).start) =
      sumA s.bitmap s.regions (fun r => r.«end» - r.start) +
        ((s.regionAt j).«end» - (s.regionAt j).start) :=
    sumA_update s.bitmap s.regions _ _ hj64 hjlen hbit
  have hc2 : sumA s.bitmap (s.regions.set j { s.regionAt j with next := addr + size })
      (fun r => r.«end» - r.next) + ((s.regionAt j).«end» - (s.regionAt j).next) =
      sumA s.bitmap s.regions (fun r => r.«end» - r.next) +
        ((s.regionAt j).«end» - (addr + size)) :=
    sumA_update s.bitmap s.regions _ _ hj64 hjlen hbit
  constructor
  · refine ⟨by rw [hcureq]; exact hcur, ?_, ⟨k, hk65, by rw [hbmeq]; exact hbm⟩, ?_, ?_, ?_, ?_⟩
    · rw [hregs, List.length_set]
      exact hlen
    · intro i hi hbit'
      rw [hbmeq] at hbit'
      rw [EarlyAllocator.regionAt, hregs]
      by_cases hij : j = i
      · subst hij
        rw [getD_set_self _ _ _ hjlen]
        refine ⟨?_, ?_, ?_⟩
        · show (s.regionAt j).start ≤ addr + size
          omega
        · show addr + size ≤ (s.regionAt j).«end»
          exact hle
        · show (s.regionAt j).«end» ≤ 2 ^ 63
          exact hend
      · rw [getD_set_ne _ _ hij]
        exact hreg i hi hbit'
    · show s'.total_size = sumA s'.bitmap s'.regions (fun r => r.«end» - r.start)
      rw [htoteq, hbmeq, hregs]
      rw [show sumActive s (fun r => r.«end» - r.start) =
        sumA s.bitmap s.regions (fun r => r.«end» - r.start) from rfl] at htot
      omega
    · show s'.used_size + sumA s'.bitmap s'.regions (fun r => r.«end» - r.next) ≤
        s'.total_size
      rw [husz, hbmeq, hregs, htoteq]
      rw [show sumActive s (fun r => r.«end» - r.next) =
        sumA s.bitmap s.regions (fun r => r.«end» - r.next) from rfl] at hused
      omega
    · rw [htoteq]
      exact htb
  · intro i hi
    rw [EarlyAllocator.regionAt, EarlyAllocator.regionAt, hregs]
    by_cases hij : j = i
    · subst hij
      rw [getD_set_self _ _ _ hjlen]
      show (s.regions.getD j Region.empty).next ≤ addr + size
      rw [EarlyAllocator.regionAt] at hge
      omega
    · rw [getD_set_ne _ _ hij]

/-! ## Reachability under the boot contract

States reachable from `new()` when the boot environment plays by the rules:
every supplied region lies in the lower half of the address space (a region
crossing `2^63` could not hold Rust objects, whose sizes are bounded by
`isize::MAX`), the running total does as well (automatic when the supplied
physical regions do not overlap), and allocation requests carry genuine
`Layout` values.  Failed calls and the `dealloc` no-ops return the state
unchanged, so they contribute no further states. -/
inductive ReachableWf : EarlyAllocator → Prop where
  | new : ReachableWf EarlyAllocator.new
  | init {s : EarlyAllocator} (start size : Nat) :
      ReachableWf s → start + size ≤ 2 ^ 63 → ReachableWf (s.init start size)
  | add_memory_ok {s s' : EarlyAllocator} (start size : Nat) :
      ReachableWf s → start + size ≤ 2 ^ 63 → s.total_size + size ≤ 2 ^ 63 →
      s.add_memory start size = .ok s' → ReachableWf s'
  | alloc_ok {s s' : EarlyAllocator} (size align addr : Nat) :
      ReachableWf s → LayoutWf size align →
      s.alloc size align = .ok addr s' → ReachableWf s'
  | alloc_pages_ok {s s' : EarlyAllocator} (PS num_pages align_pow2 addr : Nat) :
      ReachableWf s →
      s.alloc_pages PS num_pages align_pow2 = .ok addr s' → ReachableWf s'

theorem reachableWf_inv {s : EarlyAllocator} (h : ReachableWf s) : Inv s := by
  induction h with
  | new => exact inv_new
  | init start size _ hb ih => exact inv_init ih hb
  | add_memory_ok start size _ hb hb2 hok ih => exact inv_add_ok ih hb hb2 hok
  | alloc_ok size align addr _ hwf hok ih => exact (inv_alloc_ok ih hwf hok).1
  | alloc_pages_ok PS num_pages align_pow2 addr _ hok ih =>
    cases hl : Layout.from_size_align ((num_pages * PS) % 2 ^ 64) (1 <<< align_pow2) with
    | none => rw [alloc_pages_of_none hl] at hok; cases hok
    | some layout =>
      rw [alloc_pages_of_some hl] at hok
      obtain ⟨h1, h2, hwf⟩ := Layout.from_size_align_some hl
      exact (inv_alloc_ok ih (by rw [h1, h2]; exact hwf) hok).1

/-- On an invariant-holding state, a request larger than the available
bytes cannot be served by any region, so `alloc` fails with `NoMemory` and
hands back the state untouched. -/
theorem alloc_fail_of_oversize {s : EarlyAllocator} {size align : Nat}
    (h : Inv s) (hwf : LayoutWf size align)
    (hbig : s.available_bytes < size) :
    s.alloc size align = .err .NoMemory s := by
  obtain ⟨a, ha64, rfl⟩ := hwf.exists_pow
  obtain ⟨hcur, hlen, ⟨k, hk65, hbm⟩, hreg, htot, hused, htb⟩ := h
  have hk64 : k ≤ 64 := by have := Finset.mem_range.mp hk65; omega
  rw [show sumActive s (fun r => r.«end» - r.next) =
    sumA s.bitmap s.regions (fun r => r.«end» - r.next) from rfl] at hused
  rw [EarlyAllocator.available_bytes] at hbig
  have hnofit : ∀ j, j < 64 → s.bitmap.testBit j = true →
      ¬((alignedNextAddr (s.regionAt j).next (2 ^ a) + size) % 2 ^ 64 ≤
        (s.regionAt j).«end») := by
    intro j hj64 hbit hfit
    obtain ⟨hstart, hnle, hend⟩ := hreg j (Finset.mem_range.mpr hj64) hbit
    have h2a1 : (0 : Nat) < 2 ^ a := Nat.two_pow_pos a
    have h2a : (2 : Nat) ^ a ≤ 2 ^ 63 := Nat.pow_le_pow_right (by norm_num) (by omega)
    have hsa : size + 2 ^ a ≤ 2 ^ 63 := hwf.size_add_align_le
    have hxlt : (s.regionAt j).next + 2 ^ a - 1 < 2 ^ 64 := by omega
    have hge := alignedNextAddr_ge (n := (s.regionAt j).next) (by omega : a ≤ 64) hxlt
    have hle2 := alignedNextAddr_le (n := (s.regionAt j).next) (by omega : a ≤ 64) hxlt
    have hsum_lt : alignedNextAddr (s.regionAt j).next (2 ^ a) + size < 2 ^ 64 := by omega
    rw [Nat.mod_eq_of_lt hsum_lt] at hfit
    have hsingle : (s.regionAt j).«end» - (s.regionAt j).next ≤
        sumA s.bitmap s.regions (fun r => r.«end» - r.next) :=
      sumA_single_le s.bitmap s.regions (fun r => r.«end» - r.next) hj64 hbit
    omega
  cases hres : s.alloc size (2 ^ a) with
  | ok addr s' =>
    rw [alloc_def, hcur] at hres
    obtain ⟨j, hj64, hbit, haddr, _, hfit, _⟩ := allocLoop_ok_inv (by norm_num) hres
    rw [haddr] at hfit
    exact absurd hfit (hnofit j hj64 hbit)
  | err e s'' =>
    rw [alloc_def] at hres
    obtain ⟨he, hs⟩ := allocLoop_err_inv hres
    rw [he, hs]
  | panicked =>
    rw [alloc_def, hcur] at hres
    obtain ⟨j, hj64, hbit, hzero, hfit⟩ := allocLoop_panicked_inv (by norm_num) hres
    exact absurd hfit (hnofit j hj64 hbit)
  | spin =>
    rw [alloc_def, hcur] at hres
    exact absurd hres (allocLoop_no_spin_aux s size (2 ^ a) k hbm hk64 k 0
      (by omega) (by omega))

theorem alloc_err_eq {s s'' : EarlyAllocator} {size align : Nat} {e : AllocError}
    (h : s.alloc size align = .err e s'') : e = .NoMemory ∧ s'' = s := by
  rw [alloc_def] at h
  exact allocLoop_err_inv h

/-! ## Sequences of calls -/

/-- Run a list of `alloc(size, align)` requests from a state, recording
`(addr, size, align)` for every success; `none` as soon as a call does not
return `Ok`. -/
def allocSeq (s : EarlyAllocator) :
    List (Nat × Nat) → Option (List (Nat × Nat × Nat) × EarlyAllocator)
  | [] => some ([], s)
  | (size, align) :: rest =>
    match s.alloc size align with
    | .ok addr s' =>
      match allocSeq s' rest with
      | some (out, sf) => some ((addr, size, align) :: out, sf)
      | none => none
    | _ => none

/-- Run a list of `add_memory(start, size)` calls, stopping at the first
error. -/
def addSeq (s : EarlyAllocator) : List (Nat × Nat) → Except AllocError EarlyAllocator
  | [] => .ok s
  | (start, size) :: rest =>
    match s.add_memory start size with
    | .ok s' => addSeq s' rest
    | .error e => .error e

/-- Whatever slot a successful probe bumps, the aggregate counters move the
same way: `used_size` grows by the (wrapped) requested size and nothing else
among the scalar fields changes. -/
theorem allocLoop_ok_used {s s' : EarlyAllocator} {size align addr : Nat} :
    ∀ {fuel idx tried : Nat},
    s.allocLoop size align fuel idx tried = .ok addr s' →
    s'.used_size = (s.used_size + size) % 2 ^ 64 ∧
      s'.current_region = s.current_region ∧ s'.bitmap = s.bitmap ∧
      s'.total_size = s.total_size := by
  intro fuel
  induction fuel with
  | zero =>
    intro idx tried h
    rw [allocLoop_zero] at h
    split at h <;> cases h
  | succ fuel ih =>
    intro idx tried h
    rw [allocLoop_succ] at h
    split at h
    · cases h
    · split at h
      · split at h
        · split at h
          · cases h
          · rw [AllocResult.ok.injEq] at h
            rw [← h.2]
            exact ⟨rfl, rfl, rfl, rfl⟩
        · exact ih h
      · exact ih h

/-- Accounting along a successful request sequence: as long as the running
total stays below `2^64`, `used_bytes` grows by exactly the sum of the
requested sizes (alignment padding is skipped, never counted). -/
theorem allocSeq_used : ∀ (reqs : List (Nat × Nat)) {s s' : EarlyAllocator}
    {out : List (Nat × Nat × Nat)},
    allocSeq s reqs = some (out, s') →
    s.used_size + (reqs.map Prod.fst).sum < 2 ^ 64 →
    s'.used_size = s.used_size + (reqs.map Prod.fst).sum := by
  intro reqs
  induction reqs with
  | nil =>
    intro s s' out h hb
    simp only [allocSeq, Option.some.injEq, Prod.mk.injEq] at h
    rw [← h.2]
    simp
  | cons req rest ih =>
    obtain ⟨size, align⟩ := req
    intro s s' out h hb
    rw [List.map_cons, List.sum_cons] at hb ⊢
    cases halloc : s.alloc size align with
    | ok addr s1 =>
      cases hseq : allocSeq s1 rest with
      | none =>
        simp only [allocSeq, halloc, hseq] at h
        exact Option.noConfusion h
      | some p =>
        obtain ⟨out1, sf⟩ := p
        simp only [allocSeq, halloc, hseq, Option.some.injEq, Prod.mk.injEq] at h
        rw [alloc_def] at halloc
        have hstep := (allocLoop_ok_used halloc).1
        have hmod : (s.used_size + size) % 2 ^ 64 = s.used_size + size :=
          Nat.mod_eq_of_lt (by omega)
        rw [hmod] at hstep
        have hrest := ih hseq (by rw [hstep]; omega)
        rw [← h.2, hrest, hstep]
        omega
    | err e s'' =>
      simp only [allocSeq, halloc] at h
      exact Option.noConfusion h
    | panicked =>
      simp only [allocSeq, halloc] at h
      exact Option.noConfusion h
    | spin =>
      simp only [allocSeq, halloc] at h
      exact Option.noConfusion h

/-- Per-region layout of a successful single-region sequence.  From a
well-formed state whose only active slot is 0, every returned block sits
between the cursor value before the sequence and the cursor value after it,
blocks are returned in increasing address order without overlap, and each
address is a multiple of its requested alignment. -/
theorem allocSeq_single_region : ∀ (reqs : List (Nat × Nat)) {s s' : EarlyAllocator}
    {out : List (Nat × Nat × Nat)},
    Inv s → s.bitmap = 1 → (∀ r ∈ reqs, LayoutWf r.1 r.2) →
    allocSeq s reqs = some (out, s') →
    (∀ e ∈ out, (s.regionAt 0).next ≤ e.1 ∧ e.1 + e.2.1 ≤ (s'.regionAt 0).next) ∧
      (s.regionAt 0).next ≤ (s'.regionAt 0).next ∧
      (∀ e ∈ out, e.1 % e.2.2 = 0) ∧
      List.Pairwise (fun e f => e.1 + e.2.1 ≤ f.1) out := by
  intro reqs
  induction reqs with
  | nil =>
    intro s s' out hinv hbm hwf h
    simp only [allocSeq, Option.some.injEq, Prod.mk.injEq] at h
    rw [← h.1, ← h.2]
    exact ⟨by simp, Nat.le_refl _, by simp, List.Pairwise.nil⟩
  | cons req rest ih =>
    obtain ⟨size, align⟩ := req
    intro s s' out hinv hbm hwf h
    cases halloc : s.alloc size align with
    | ok addr s1 =>
      cases hseq : allocSeq s1 rest with
      | none =>
        simp only [allocSeq, halloc, hseq] at h
        exact Option.noConfusion h
      | some p =>
        obtain ⟨out1, sf⟩ := p
        simp only [allocSeq, halloc, hseq, Option.some.injEq, Prod.mk.injEq] at h
        have hwfhead : LayoutWf size align := hwf (size, align) (by simp)
        obtain ⟨j, hj64, hbit, hge, hle, hmod, haux, hregs, husz, hbmeq, hcureq, htoteq⟩ :=
          alloc_ok_spec hinv hwfhead halloc
        have hj0 : j = 0 := by
          rw [hbm] at hbit
          have hbit' : (2 ^ 0 : Nat).testBit j = true := hbit
          rw [Nat.testBit_two_pow] at hbit'
          have := of_decide_eq_true hbit'
          omega
        subst hj0
        have hlen : s.regions.length = 64 := hinv.2.1
        have h0len : 0 < s.regions.length := by omega
        have hinv1 : Inv s1 := (inv_alloc_ok hinv hwfhead halloc).1
        have hbm1 : s1.bitmap = 1 := by rw [hbmeq, hbm]
        have hr1 : s1.regionAt 0 = { s.regionAt 0 with next := addr + size } := by
          rw [EarlyAllocator.regionAt, hregs]
          exact getD_set_self _ _ _ h0len
        have hnext1 : (s1.regionAt 0).next = addr + size := by rw [hr1]
        obtain ⟨hout1, hmono1, hmods1, hpw1⟩ :=
          ih hinv1 hbm1 (fun r hr => hwf r (by simp [hr])) hseq
        rw [← h.1, ← h.2]
        refine ⟨?_, ?_, ?_, ?_⟩
        · intro e he
          rcases List.mem_cons.mp he with rfl | hemem
          · exact ⟨hge, by
              have := hmono1
              rw [hnext1] at this
              simpa using this⟩
          · have h1 := hout1 e hemem
            rw [hnext1] at h1
            exact ⟨by omega, h1.2⟩
        · have := hmono1
          rw [hnext1] at this
          omega
        · intro e he
          rcases List.mem_cons.mp he with rfl | hemem
          · exact hmod
          · exact hmods1 e hemem
        · refine List.Pairwise.cons ?_ hpw1
          intro e hemem
          have h1 := hout1 e hemem
          rw [hnext1] at h1
          show addr + size ≤ e.1
          omega
    | err e s'' =>
      simp only [allocSeq, halloc] at h
      exact Option.noConfusion h
    | panicked =>
      simp only [allocSeq, halloc] at h
      exact Option.noConfusion h
    | spin =>
      simp only [allocSeq, halloc] at h
      exact Option.noConfusion h

/-- Running `add_memory` repeatedly on a contiguous bitmap: all calls find
free slots while the table has room, the bitmap stays contiguous, and the
total counter accumulates the added sizes. -/
theorem addSeq_spec : ∀ (reqs : List (Nat × Nat)) {s : EarlyAllocator} (K : Nat),
    s.bitmap = 2 ^ K - 1 → K + reqs.length ≤ 64 → s.total_size < 2 ^ 64 →
    ∃ s', addSeq s reqs = .ok s' ∧ s'.bitmap = 2 ^ (K + reqs.length) - 1 ∧
      s'.total_size = (s.total_size + (reqs.map Prod.snd).sum) % 2 ^ 64 ∧
      s'.current_region = s.current_region ∧ s'.used_size = s.used_size := by
  intro reqs
  induction reqs with
  | nil =>
    intro s K hbm hK hts
    refine ⟨s, rfl, by simpa using hbm, ?_, rfl, rfl⟩
    rw [List.map_nil, List.sum_nil, Nat.add_zero, Nat.mod_eq_of_lt hts]
  | cons req rest ih =>
    obtain ⟨start, size⟩ := req
    intro s K hbm hK hts
    have hKlt : K < 64 := by
      rw [List.length_cons] at hK
      omega
    have hspec := add_memory_spec s start size K hbm (by omega)
    rw [if_pos hKlt] at hspec
    have hbm1 : (s.installed K start size).bitmap = 2 ^ (K + 1) - 1 := by
      show s.bitmap ||| (1 <<< K) = 2 ^ (K + 1) - 1
      rw [hbm, two_pow_sub_one_lor_self]
    have htot1 : (s.installed K start size).total_size = (s.total_size + size) % 2 ^ 64 := rfl
    obtain ⟨s', hrun, hbm', htot', hcur', hused'⟩ := ih (s := s.installed K start size)
      (K + 1) hbm1 (by rw [List.length_cons] at hK; omega)
      (by rw [htot1]; exact Nat.mod_lt _ (Nat.two_pow_pos 64))
    refine ⟨s', ?_, ?_, ?_, hcur', hused'⟩
    · rw [addSeq, hspec]
      exact hrun
    · rw [hbm', List.length_cons]
      congr 2
      omega
    · rw [htot', htot1, List.map_cons, List.sum_cons, Nat.mod_add_mod]
      congr 1
      omega

/-- On a well-formed state whose active regions all start above address 0,
a `Layout`-valid byte allocation can neither hit the null-pointer `unwrap`
nor spin in the scan: it returns `Ok` or `Err`. -/
theorem alloc_no_abort {s : EarlyAllocator} {size align : Nat}
    (h : Inv s) (hwf : LayoutWf size align)
    (hpos : ∀ j ∈ Finset.range 64, s.bitmap.testBit j = true → 0 < (s.regionAt j).start) :
    s.alloc size align ≠ .panicked ∧ s.alloc size align ≠ .spin := by
  obtain ⟨a, ha64, rfl⟩ := hwf.exists_pow
  obtain ⟨hcur, hlen, ⟨k, hk65, hbm⟩, hreg, htot, hused, htb⟩ := h
  constructor
  · intro hp
    rw [alloc_def, hcur] at hp
    obtain ⟨j, hj64, hbit, hzero, _⟩ := allocLoop_panicked_inv (by norm_num) hp
    obtain ⟨hstart, hnle, hend⟩ := hreg j (Finset.mem_range.mpr hj64) hbit
    have h2a1 : (0 : Nat) < 2 ^ a := Nat.two_pow_pos a
    have h2a : (2 : Nat) ^ a ≤ 2 ^ 63 := Nat.pow_le_pow_right (by norm_num) (by omega)
    have hxlt : (s.regionAt j).next + 2 ^ a - 1 < 2 ^ 64 := by omega
    have hge := alignedNextAddr_ge (n := (s.regionAt j).next) (by omega : a ≤ 64) hxlt
    have hp0 := hpos j (Finset.mem_range.mpr hj64) hbit
    omega
  · intro hp
    rw [alloc_def, hcur] at hp
    exact absurd hp (allocLoop_no_spin_aux s size (2 ^ a) k hbm
      (by have := Finset.mem_range.mp hk65; omega) k 0 (by omega) (by omega))

/-- A successful scan's address is the aligned cursor of some slot (no
bound on the slot index is needed for this). -/
theorem allocLoop_ok_addr {s s' : EarlyAllocator} {size align addr : Nat} :
    ∀ {fuel idx tried : Nat},
    s.allocLoop size align fuel idx tried = .ok addr s' →
    ∃ j, addr = alignedNextAddr (s.regionAt j).next align := by
  intro fuel
  induction fuel with
  | zero =>
    intro idx tried h
    rw [allocLoop_zero] at h
    split at h <;> cases h
  | succ fuel ih =>
    intro idx tried h
    rw [allocLoop_succ] at h
    split at h
    · cases h
    · split at h
      · split at h
        · split at h
          · cases h
          · rw [AllocResult.ok.injEq] at h
            exact ⟨idx, h.1.symm⟩
        · exact ih h
      · exact ih h

/-! ## Claim theorems -/

/-- C1: Successful `alloc(size, align)` calls served from one region (the
single active slot installed by `init`) return pairwise non-overlapping
blocks, each address a multiple of its requested alignment; and every
address `alloc_pages(n, p)` returns is a multiple of `2^p`. -/
theorem c1_alloc_addresses_disjoint_and_aligned
    (s s' : EarlyAllocator) (reqs : List (Nat × Nat)) (out : List (Nat × Nat × Nat))
    (hinv : Inv s) (hbm : s.bitmap = 1)
    (hwf : ∀ r ∈ reqs, LayoutWf r.1 r.2)
    (hrun : allocSeq s reqs = some (out, s')) :
    (List.Pairwise (fun e f => e.1 + e.2.1 ≤ f.1 ∨ f.1 + f.2.1 ≤ e.1) out ∧
      ∀ e ∈ out, e.1 % e.2.2 = 0) ∧
    ∀ (t t' : EarlyAllocator) (PS num_pages align_pow2 addr : Nat),
      t.alloc_pages PS num_pages align_pow2 = .ok addr t' →
      addr % 2 ^ align_pow2 = 0 := by
  obtain ⟨hout, hmono, hmods, hpw⟩ := allocSeq_single_region reqs hinv hbm hwf hrun
  refine ⟨⟨hpw.imp (fun h => Or.inl h), hmods⟩, ?_⟩
  intro t t' PS num_pages align_pow2 addr hok
  cases hl : Layout.from_size_align ((num_pages * PS) % 2 ^ 64) (1 <<< align_pow2) with
  | none => rw [alloc_pages_of_none hl] at hok; cases hok
  | some layout =>
    rw [alloc_pages_of_some hl] at hok
    obtain ⟨hsize, halign, hlwf⟩ := Layout.from_size_align_some hl
    obtain ⟨a, ha64, hpa⟩ := hlwf.exists_pow
    rw [one_shiftLeft_eq] at hpa
    have hpaeq : align_pow2 = a := Nat.pow_right_injective (by norm_num) hpa
    rw [alloc_def] at hok
    obtain ⟨j, haddr⟩ := allocLoop_ok_addr hok
    rw [haddr, halign, one_shiftLeft_eq, hpaeq]
    exact alignedNextAddr_mod (by omega)

theorem c1_witness :
    List.Pairwise (fun e f => e.1 + e.2.1 ≤ f.1 ∨ f.1 + f.2.1 ≤ e.1)
      ([(0x1000, 0x10, 0x10), (0x1010, 0x8, 0x8)] : List (Nat × Nat × Nat)) ∧
    ∀ e ∈ ([(0x1000, 0x10, 0x10), (0x1010, 0x8, 0x8)] : List (Nat × Nat × Nat)),
      e.1 % e.2.2 = 0 :=
  (c1_alloc_addresses_disjoint_and_aligned (EarlyAllocator.new.init 0x1000 0x100)
    { bitmap := 1
      regions := (List.replicate 64 Region.empty).set 0
        { start := 0x1000, «end» := 0x1100, next := 0x1018 }
      current_region := 0, total_size := 0x100, used_size := 0x18 }
    [(0x10, 0x10), (0x8, 0x8)] [(0x1000, 0x10, 0x10), (0x1010, 0x8, 0x8)]
    (by decide) (by decide) (by decide) (by decide)).1

/-- C2: On every state reachable through `init`/`add_memory`/`alloc` under
the boot contract, an allocation request larger than `available_bytes()`
fails with the out-of-memory error and hands the state back untouched; more
generally every failed `alloc` returns its state unchanged (no partial
allocation). -/
theorem c2_oversized_alloc_fails_atomically
    (s : EarlyAllocator) (size align : Nat)
    (hreach : ReachableWf s) (hwf : LayoutWf size align)
    (hgt : s.available_bytes < size) :
    s.alloc size align = .err .NoMemory s ∧
    ∀ (t t' : EarlyAllocator) (sz al : Nat) (e : AllocError),
      t.alloc sz al = .err e t' → t' = t :=
  ⟨alloc_fail_of_oversize (reachableWf_inv hreach) hwf hgt,
    fun _ _ _ _ _ h => (alloc_err_eq h).2⟩

theorem c2_witness :
    (EarlyAllocator.new.init 0x1000 0x100).alloc 0x200 0x10 =
      .err .NoMemory (EarlyAllocator.new.init 0x1000 0x100) :=
  (c2_oversized_alloc_fails_atomically (EarlyAllocator.new.init 0x1000 0x100) 0x200 0x10
    (ReachableWf.init 0x1000 0x100 ReachableWf.new (by norm_num))
    (by decide) (by decide)).1

/-- C3: Every operation preserves the data-model invariants (`Inv`: per
active region `start ≤ next ≤ end`, `used_size ≤ total_size`, `total_size`
equal to the sum of `end - start` over active regions), and the operations
other than `init`/`add_memory` (which may reinstall a slot) never move any
region's `next` cursor backwards; failed `alloc` and the deallocation
no-ops leave the state exactly as it was. -/
theorem c3_every_operation_preserves_invariants (s : EarlyAllocator) (hinv : Inv s) :
    (∀ start size, start + size ≤ 2 ^ 63 → Inv (s.init start size)) ∧
    (∀ start size s', start + size ≤ 2 ^ 63 → s.total_size + size ≤ 2 ^ 63 →
      s.add_memory start size = .ok s' → Inv s') ∧
    (∀ size align addr s', LayoutWf size align → s.alloc size align = .ok addr s' →
      Inv s' ∧ NextMono s s' ∧ s'.used_size ≤ s'.total_size) ∧
    (∀ size align e s', s.alloc size align = .err e s' → s' = s) ∧
    (∀ pos size align, s.dealloc pos size align = s) ∧
    (∀ PS num_pages align_pow2 addr s',
      s.alloc_pages PS num_pages align_pow2 = .ok addr s' → Inv s' ∧ NextMono s s') ∧
    (∀ pos num_pages, s.dealloc_pages pos num_pages = s) ∧
    s.used_size ≤ s.total_size := by
  refine ⟨fun start size hb => inv_init hinv hb,
    fun start size s' hb hb2 hok => inv_add_ok hinv hb hb2 hok,
    fun size align addr s' hwf hok => ?_,
    fun size align e s' herr => (alloc_err_eq herr).2,
    fun pos size align => rfl,
    fun PS num_pages align_pow2 addr s' hok => ?_,
    fun pos num_pages => rfl, ?_⟩
  · obtain ⟨h1, h2⟩ := inv_alloc_ok hinv hwf hok
    refine ⟨h1, h2, ?_⟩
    obtain ⟨_, _, _, _, _, hused, _⟩ := h1
    omega
  · cases hl : Layout.from_size_align ((num_pages * PS) % 2 ^ 64) (1 <<< align_pow2) with
    | none => rw [alloc_pages_of_none hl] at hok; cases hok
    | some layout =>
      rw [alloc_pages_of_some hl] at hok
      obtain ⟨h1l, h2l, hlwf⟩ := Layout.from_size_align_some hl
      exact inv_alloc_ok hinv (by rw [h1l, h2l]; exact hlwf) hok
  · obtain ⟨_, _, _, _, _, hused, _⟩ := hinv
    omega

theorem c3_witness :
    Inv ((EarlyAllocator.new.init 0x1000 0x100).init 0x2000 0x80) :=
  (c3_every_operation_preserves_invariants (EarlyAllocator.new.init 0x1000 0x100)
    (by decide)).1 0x2000 0x80 (by norm_num)

/-- C4: On every reachable state the allocation scan terminates within the
64-probe budget (each slot is probed at most once): the result is never the
`spin` marker that denotes a scan still inside the loop after 64 probes. -/
theorem c4_alloc_scan_terminates (s : EarlyAllocator) (h : Reachable s)
    (size align : Nat) : s.alloc size align ≠ .spin := by
  obtain ⟨hcur, k, hk, hbm⟩ := reachable_cursorContig h
  intro hp
  rw [alloc_def, hcur] at hp
  exact absurd hp (allocLoop_no_spin_aux s size align k hbm hk k 0 (by omega) (by omega))

theorem c4_witness :
    (EarlyAllocator.new.init 0x1000 0x100).alloc 0x1000 0x10 ≠ .spin :=
  c4_alloc_scan_terminates _
    (Reachable.step Reachable.new (Step.init EarlyAllocator.new 0x1000 0x100)) 0x1000 0x10

/-- C5 (counterexample): in the concrete scenario `init(0x1000, 0x100)`,
the first `alloc(0x10, 0x10)` succeeds at `0x1000` with
`used_bytes() = 0x10` as the claim says, but the subsequent
`alloc(0xF0, 0x10)` does NOT fail: the cursor `0x1010` is already 16-byte
aligned, the remaining `0xF0` bytes fit exactly, and the call returns
`0x1010`. -/
theorem c5_counterexample :
    (EarlyAllocator.new.init 0x1000 0x100).alloc 0x10 0x10 =
      .ok 0x1000
        { bitmap := 1
          regions := (List.replicate 64 Region.empty).set 0
            { start := 0x1000, «end» := 0x1100, next := 0x1010 }
          current_region := 0, total_size := 0x100, used_size := 0x10 } ∧
    ({ bitmap := 1
       regions := (List.replicate 64 Region.empty).set 0
         { start := 0x1000, «end» := 0x1100, next := 0x1010 }
       current_region := 0, total_size := 0x100,
       used_size := 0x10 } : EarlyAllocator).used_bytes = 0x10 ∧
    ({ bitmap := 1
       regions := (List.replicate 64 Region.empty).set 0
         { start := 0x1000, «end» := 0x1100, next := 0x1010 }
       current_region := 0, total_size := 0x100,
       used_size := 0x10 } : EarlyAllocator).alloc 0xF0 0x10 =
      .ok 0x1010
        { bitmap := 1
          regions := (List.replicate 64 Region.empty).set 0
            { start := 0x1000, «end» := 0x1100, next := 0x1100 }
          current_region := 0, total_size := 0x100, used_size := 0x100 } := by
  decide

/-- C5 (amended): `init(0x1000, 0x100)`; `alloc(0x10, 0x10)` succeeds,
returns `0x1000`, `used_bytes() = 0x10`; the subsequent `alloc(0xF0, 0x10)`
also succeeds (no padding is needed), returns `0x1010` and exhausts the
region (`used_bytes() = 0x100`, `available_bytes() = 0`); any further
allocation, e.g. `alloc(1, 1)`, fails with `NoMemory`. -/
theorem c5_amended_scenario :
    (EarlyAllocator.new.init 0x1000 0x100).alloc 0x10 0x10 =
      .ok 0x1000
        { bitmap := 1
          regions := (List.replicate 64 Region.empty).set 0
            { start := 0x1000, «end» := 0x1100, next := 0x1010 }
          current_region := 0, total_size := 0x100, used_size := 0x10 } ∧
    ({ bitmap := 1
       regions := (List.replicate 64 Region.empty).set 0
         { start := 0x1000, «end» := 0x1100, next := 0x1010 }
       current_region := 0, total_size := 0x100,
       used_size := 0x10 } : EarlyAllocator).alloc 0xF0 0x10 =
      .ok 0x1010
        { bitmap := 1
          regions := (List.replicate 64 Region.empty).set 0
            { start := 0x1000, «end» := 0x1100, next := 0x1100 }
          current_region := 0, total_size := 0x100, used_size := 0x100 } ∧
    ({ bitmap := 1
       regions := (List.replicate 64 Region.empty).set 0
         { start := 0x1000, «end» := 0x1100, next := 0x1100 }
       current_region := 0, total_size := 0x100,
       used_size := 0x100 } : EarlyAllocator).used_bytes = 0x100 ∧
    ({ bitmap := 1
       regions := (List.replicate 64 Region.empty).set 0
         { start := 0x1000, «end» := 0x1100, next := 0x1100 }
       current_region := 0, total_size := 0x100,
       used_size := 0x100 } : EarlyAllocator).available_bytes = 0 ∧
    ({ bitmap := 1
       regions := (List.replicate 64 Region.empty).set 0
         { start := 0x1000, «end» := 0x1100, next := 0x1100 }
       current_region := 0, total_size := 0x100,
       used_size := 0x100 } : EarlyAllocator).alloc 1 1 =
      .err .NoMemory
        { bitmap := 1
          regions := (List.replicate 64 Region.empty).set 0
            { start := 0x1000, «end» := 0x1100, next := 0x1100 }
          current_region := 0, total_size := 0x100, used_size := 0x100 } := by
  decide

deriving instance DecidableEq for Except

/-- C6 (counterexample): allocation failures are not always explicit result
values.  After `init(0, 0x100)` the computed aligned address is 0, so
`NonNull::new(ptr).unwrap()` aborts instead of returning; and
`alloc_pages(2^51, 0)` with a 4096-byte page size asks for `2^63` bytes,
`Layout::from_size_align` rejects it, and the `.unwrap()` aborts. -/
theorem c6_counterexample :
    (EarlyAllocator.new.init 0 0x100).alloc 0x10 0x10 = .panicked ∧
    (EarlyAllocator.new.init 0x1000 0x100).alloc_pages 4096 (2 ^ 51) 0 = .panicked := by
  decide

/-- C6 (amended): out-of-memory failures are explicit `Err(NoMemory)`
values that leave the state untouched, and on boot-contract states whose
active regions start above address 0, a `Layout`-valid `alloc` never aborts
and never hangs; `alloc_pages` likewise never aborts whenever its layout
construction succeeds.  (The unamendable part: `alloc` aborts when the
aligned address is 0, and `alloc_pages` aborts when
`Layout::from_size_align` fails — see the counterexample.) -/
theorem c6_failures_explicit_amended
    (s : EarlyAllocator) (size align : Nat)
    (hreach : ReachableWf s)
    (hpos : ∀ j ∈ Finset.range 64, s.bitmap.testBit j = true → 0 < (s.regionAt j).start)
    (hwf : LayoutWf size align) :
    (s.alloc size align ≠ .panicked ∧ s.alloc size align ≠ .spin) ∧
    (∀ e s'', s.alloc size align = .err e s'' → e = .NoMemory ∧ s'' = s) ∧
    ∀ (PS num_pages align_pow2 : Nat) (layout : Layout),
      Layout.from_size_align ((num_pages * PS) % 2 ^ 64) (1 <<< align_pow2) = some layout →
      s.alloc_pages PS num_pages align_pow2 ≠ .panicked := by
  have hinv := reachableWf_inv hreach
  refine ⟨alloc_no_abort hinv hwf hpos, fun e s'' h => alloc_err_eq h, ?_⟩
  intro PS num_pages align_pow2 layout hl
  rw [alloc_pages_of_some hl]
  obtain ⟨h1l, h2l, hlwf⟩ := Layout.from_size_align_some hl
  exact (alloc_no_abort hinv (by rw [h1l, h2l]; exact hlwf) hpos).1

theorem c6_witness :
    (EarlyAllocator.new.init 0x1000 0x100).alloc 0x10 0x10 ≠ .panicked :=
  ((c6_failures_explicit_amended (EarlyAllocator.new.init 0x1000 0x100) 0x10 0x10
    (ReachableWf.init 0x1000 0x100 ReachableWf.new (by norm_num))
    (by decide) (by decide)).1).1

/-- C7 (counterexample): starting from a fresh allocator, 65 `add_memory`
calls do not produce a distinct "out of capacity" error at the end: the
first 64 succeed and the 65th fails with `AllocError::NoMemory` — the very
same error value a failed allocation returns (second conjunct). -/
theorem c7_counterexample :
    addSeq EarlyAllocator.new
        ((List.range 65).map (fun i => (0x100000 + 0x1000 * i, 0x100))) =
      .error .NoMemory ∧
    EarlyAllocator.new.alloc 1 1 = .err .NoMemory EarlyAllocator.new := by
  decide

/-- C7 (amended): from a fresh allocator, any 64 `add_memory` calls all
succeed (each installing into the first inactive slot, filling the bitmap
to `2^64 - 1`) and together contribute the sum of their sizes to
`total_bytes()`; a 65th call fails, but with `AllocError::NoMemory` — the
same error kind that out-of-memory allocations return, not a distinct
out-of-capacity kind. -/
theorem c7_add_memory_fills_table_amended (reqs : List (Nat × Nat))
    (hlen : reqs.length = 64) (hsum : (reqs.map Prod.snd).sum < 2 ^ 64) :
    ∃ s', addSeq EarlyAllocator.new reqs = .ok s' ∧
      s'.bitmap = 2 ^ 64 - 1 ∧
      s'.total_bytes = (reqs.map Prod.snd).sum ∧
      ∀ start size, s'.add_memory start size = .error .NoMemory := by
  obtain ⟨s', hrun, hbm, htot, hcur, hused⟩ :=
    addSeq_spec reqs (s := EarlyAllocator.new) 0 rfl (by omega) (by decide)
  rw [hlen] at hbm
  refine ⟨s', hrun, by simpa using hbm, ?_, ?_⟩
  · rw [EarlyAllocator.total_bytes, htot]
    show (0 + (reqs.map Prod.snd).sum) % 2 ^ 64 = _
    rw [Nat.zero_add, Nat.mod_eq_of_lt hsum]
  · intro start size
    have hspec := add_memory_spec s' start size 64 (by simpa using hbm) (Nat.le_refl 64)
    rw [if_neg (lt_irrefl 64)] at hspec
    exact hspec

theorem c7_witness :
    ∃ s', addSeq EarlyAllocator.new
        ((List.range 64).map (fun i => (0x100000 + 0x1000 * i, 0x100))) = .ok s' ∧
      s'.bitmap = 2 ^ 64 - 1 ∧
      s'.total_bytes =
        ((((List.range 64).map (fun i => (0x100000 + 0x1000 * i, 0x100))).map
          Prod.snd).sum) ∧
      ∀ start size, s'.add_memory start size = .error .NoMemory :=
  c7_add_memory_fills_table_amended _ (by decide) (by decide)

/-- C8: over any successful request sequence, `used_bytes()` grows by
exactly the sum of the requested sizes — alignment padding is consumed from
the region but never counted — and a successful `alloc_pages(n, p)` grows
`used_bytes()` by exactly `n * PAGE_SIZE`.  (The bounds keep the `usize`
counter additions below `2^64`.) -/
theorem c8_used_bytes_is_sum_of_requests
    (s s' t t' : EarlyAllocator) (reqs : List (Nat × Nat))
    (out : List (Nat × Nat × Nat)) (PS num_pages align_pow2 addr : Nat)
    (hrun : allocSeq s reqs = some (out, s'))
    (hb : s.used_size + (reqs.map Prod.fst).sum < 2 ^ 64)
    (hpage : t.alloc_pages PS num_pages align_pow2 = .ok addr t')
    (hb2 : t.used_size + num_pages * PS < 2 ^ 64) :
    s'.used_bytes = s.used_bytes + (reqs.map Prod.fst).sum ∧
    t'.used_bytes = t.used_bytes + num_pages * PS := by
  refine ⟨allocSeq_used reqs hrun hb, ?_⟩
  cases hl : Layout.from_size_align ((num_pages * PS) % 2 ^ 64) (1 <<< align_pow2) with
  | none => rw [alloc_pages_of_none hl] at hpage; cases hpage
  | some layout =>
    rw [alloc_pages_of_some hl, alloc_def] at hpage
    obtain ⟨hsize, halign, hlwf⟩ := Layout.from_size_align_some hl
    have hstep := (allocLoop_ok_used hpage).1
    rw [hsize] at hstep
    have hmul : (num_pages * PS) % 2 ^ 64 = num_pages * PS :=
      Nat.mod_eq_of_lt (by omega)
    rw [hmul, Nat.mod_eq_of_lt hb2] at hstep
    exact hstep

theorem c8_witness :
    ({ bitmap := 1
       regions := (List.replicate 64 Region.empty).set 0
         { start := 0x1000, «end» := 0x1100, next := 0x1010 }
       current_region := 0, total_size := 0x100,
       used_size := 0x10 } : EarlyAllocator).used_bytes =
      (EarlyAllocator.new.init 0x1000 0x100).used_bytes +
        (([(0x10, 0x10)] : List (Nat × Nat)).map Prod.fst).sum ∧
    ({ bitmap := 1
       regions := (List.replicate 64 Region.empty).set 0
         { start := 0x1000, «end» := 0x1100, next := 0x1040 }
       current_region := 0, total_size := 0x100,
       used_size := 0x40 } : EarlyAllocator).used_bytes =
      (EarlyAllocator.new.init 0x1000 0x100).used_bytes + 4 * 0x10 :=
  c8_used_bytes_is_sum_of_requests
    (EarlyAllocator.new.init 0x1000 0x100)
    { bitmap := 1
      regions := (List.replicate 64 Region.empty).set 0
        { start := 0x1000, «end» := 0x1100, next := 0x1010 }
      current_region := 0, total_size := 0x100, used_size := 0x10 }
    (EarlyAllocator.new.init 0x1000 0x100)
    { bitmap := 1
      regions := (List.replicate 64 Region.empty).set 0
        { start := 0x1000, «end» := 0x1100, next := 0x1040 }
      current_region := 0, total_size := 0x100, used_size := 0x40 }
    [(0x10, 0x10)] [(0x1000, 0x10, 0x10)] 0x10 4 2 0x1000
    (by decide) (by decide) (by decide) (by decide)

/-- C9: `dealloc` and `dealloc_pages` are unconditional no-ops: for every
state and every argument they return the state unchanged, so in particular
`used_bytes()`, `total_bytes()` and `available_bytes()` are unchanged. -/
theorem c9_dealloc_unconditional_noop
    (s : EarlyAllocator) (pos size align addr num_pages : Nat) :
    s.dealloc pos size align = s ∧ s.dealloc_pages addr num_pages = s ∧
    (s.dealloc pos size align).used_bytes = s.used_bytes ∧
    (s.dealloc pos size align).total_bytes = s.total_bytes ∧
    (s.dealloc pos size align).available_bytes = s.available_bytes ∧
    (s.dealloc_pages addr num_pages).used_bytes = s.used_bytes ∧
    (s.dealloc_pages addr num_pages).total_bytes = s.total_bytes ∧
    (s.dealloc_pages addr num_pages).available_bytes = s.available_bytes :=
  ⟨rfl, rfl, rfl, rfl, rfl, rfl, rfl, rfl⟩

/-- C10 (implicit): on every state reachable from `new()` through the six
public operations, the search cursor `current_region` is 0 — it is written
only by `new` and `init`, both of which pin it to 0 — and the active bitset
is a contiguous block of low bits, of the form `2^k - 1`. -/
theorem c10_cursor_zero_and_bitmap_contiguous (s : EarlyAllocator)
    (h : Reachable s) :
    s.current_region = 0 ∧ ∃ k, k ≤ 64 ∧ s.bitmap = 2 ^ k - 1 :=
  reachable_cursorContig h

theorem c10_witness :
    (EarlyAllocator.new.init 0x1000 0x100).current_region = 0 ∧
    ∃ k, k ≤ 64 ∧ (EarlyAllocator.new.init 0x1000 0x100).bitmap = 2 ^ k - 1 :=
  c10_cursor_zero_and_bitmap_contiguous _
    (Reachable.step Reachable.new (Step.init EarlyAllocator.new 0x1000 0x100))

end BumpAllocator
